import Mathlib

/-!
Verification development for the Evd playback-readiness pipeline.

The definitions below are a shallow embedding of the Go sources:
the in-memory job registry and the media service kickoff and status
functions (package media), the range streamer (package http), the
Transmission piece-focus client (package transmission), the growing-file
reader and the prewarm scanner.  Machine integers are modelled as Int,
Go maps as functions into Option, and the effectful parts (filesystem
probes, RPC responses, subprocess spawns) as explicit inputs and outputs
of otherwise pure transition functions.
-/

namespace Evd

/-! Job states are the Go string constants of domain/media/job.go.
The Go zero value of the string type JobState is the empty string. -/

def stateIdle : String := "idle"
def stateProcessing : String := "processing"
def stateReady : String := "ready"
def stateFailed : String := "failed"

/-- One jobState record of the registry: conversion state, last error text,
and integer progress. Mirrors the jobState struct. -/
structure JobEntry where
  state : String
  err : String
  progress : Int
deriving DecidableEq, Repr

/-- Go zero value of jobState, produced by new(jobState) on a missing key. -/
def JobEntry.zero : JobEntry := ⟨"", "", 0⟩

/-- The jobRegistry map, keyed by the string jobKey. -/
def Registry : Type := String → Option JobEntry

/-- Fresh registry: the empty map (state after process start). -/
def Registry.empty : Registry := fun _ => none

/-- Map write j.jobs[key] = state. -/
def Registry.update (r : Registry) (k : String) (e : JobEntry) : Registry :=
  fun q => if q = k then some e else r q

/-- jobRegistry.IsRunning: present and state Processing. -/
def Registry.isRunning (r : Registry) (k : String) : Bool :=
  match r k with
  | some e => e.state = stateProcessing
  | none => false

/-- jobRegistry.Start: state Processing, empty error, progress 0. -/
def Registry.start (r : Registry) (k : String) : Registry :=
  r.update k ⟨stateProcessing, "", 0⟩

/-- jobRegistry.Ready: state Ready and progress 100; a missing entry is
first created as the zero jobState. The error text is kept as in the code. -/
def Registry.markReady (r : Registry) (k : String) : Registry :=
  let e := (r k).getD JobEntry.zero
  r.update k { e with state := stateReady, progress := 100 }

/-- jobRegistry.Fail: state Failed with the error text recorded; progress
is kept unchanged. -/
def Registry.fail (r : Registry) (k : String) (msg : String) : Registry :=
  let e := (r k).getD JobEntry.zero
  r.update k { e with state := stateFailed, err := msg }

/-- jobRegistry.Status: the stored entry, defaulting to (Idle, empty, 0)
for an unknown key. -/
def Registry.statusOf (r : Registry) (k : String) : JobEntry :=
  (r k).getD ⟨stateIdle, "", 0⟩

/-- jobRegistry.Progress: clamp the value to [0, 100] and only raise the
stored progress; the entry is (re)written in every case, creating a zero
entry for a missing key, exactly as the Go code does. -/
def Registry.reportProgress (r : Registry) (k : String) (v : Int) : Registry :=
  let w := if v < 0 then 0 else if v > 100 then 100 else v
  let e := (r k).getD JobEntry.zero
  let e2 := if w > e.progress then { e with progress := w } else e
  r.update k e2

/-- Folding a whole sequence of reportProgress calls for one key. -/
def Registry.runProgress (r : Registry) (k : String) (vs : List Int) : Registry :=
  vs.foldl (fun a v => a.reportProgress k v) r

theorem Registry.statusOf_update (r : Registry) (k : String) (e : JobEntry) :
    (r.update k e).statusOf k = e := by
  simp [Registry.statusOf, Registry.update]

theorem Registry.statusOf_update_ne (r : Registry) (k q : String) (e : JobEntry)
    (h : q ≠ k) : (r.update k e).statusOf q = r.statusOf q := by
  simp [Registry.statusOf, Registry.update, h]

/-- Progress of the stored entry before and after one reportProgress call:
one step never lowers it. -/
theorem Registry.reportProgress_step_le (r : Registry) (k : String) (v : Int) :
    (r.statusOf k).progress ≤ ((r.reportProgress k v).statusOf k).progress := by
  unfold Registry.reportProgress
  rcases h : r k with _ | e <;>
    simp only [h, Option.getD_some, Option.getD_none, Registry.update,
      Registry.statusOf, JobEntry.zero] <;>
    split_ifs <;> simp_all [Registry.update] <;> omega

/-- One reportProgress call stores at most max(old, 100), and keeps the
value nonnegative when it was. -/
theorem Registry.reportProgress_step_ub (r : Registry) (k : String) (v : Int) :
    ((r.reportProgress k v).statusOf k).progress ≤ max (r.statusOf k).progress 100
    ∧ (0 ≤ (r.statusOf k).progress → 0 ≤ ((r.reportProgress k v).statusOf k).progress) := by
  unfold Registry.reportProgress
  rcases h : r k with _ | e <;>
    simp only [h, Option.getD_some, Option.getD_none, Registry.update,
      Registry.statusOf, JobEntry.zero] <;>
    split_ifs <;> simp_all [Registry.update]

theorem Registry.runProgress_le (r : Registry) (k : String) (vs : List Int) :
    (r.statusOf k).progress ≤ ((r.runProgress k vs).statusOf k).progress := by
  induction vs generalizing r with
  | nil => exact le_refl _
  | cons v rest ih =>
      exact le_trans (r.reportProgress_step_le k v) (ih (r.reportProgress k v))

theorem Registry.runProgress_append (r : Registry) (k : String) (vs ws : List Int) :
    r.runProgress k (vs ++ ws) = (r.runProgress k vs).runProgress k ws := by
  simp [Registry.runProgress, List.foldl_append]

/-- C4: for one job key and any sequence of reportProgress calls with
arbitrary integer arguments, the stored progress never decreases across the
sequence (every prefix stores at most what the full sequence stores), each
call stores a value clamped below 100 unless the old value already exceeded
it and never drops below zero, and a final markReady leaves the stored
progress at exactly 100. -/
theorem progress_monotone_and_ready_is_100
    (r : Registry) (k : String) (vs ws : List Int) (v : Int) :
    ((r.runProgress k vs).statusOf k).progress
      ≤ ((r.runProgress k (vs ++ ws)).statusOf k).progress
    ∧ ((r.reportProgress k v).statusOf k).progress ≤ max (r.statusOf k).progress 100
    ∧ (0 ≤ (r.statusOf k).progress → 0 ≤ ((r.reportProgress k v).statusOf k).progress)
    ∧ ((Registry.markReady (r.runProgress k vs) k).statusOf k).progress = 100 := by
  refine ⟨?_, (r.reportProgress_step_ub k v).1, (r.reportProgress_step_ub k v).2, ?_⟩
  · rw [Registry.runProgress_append]
    exact Registry.runProgress_le _ k ws
  · simp [Registry.markReady, Registry.statusOf_update]

/-! Media service (src/unnamed/part_000, Service).  Path resolution, the
on-disk probes hlsReady and mp4Ready, and output preparation failures are
inputs of the embedded functions: a kickoff or status function is modelled
from the point where ResolveVideoPath has succeeded, with the probe result
passed in, and it reports its effects (registry after the call, whether the
output directory was prepared, whether a conversion goroutine was spawned)
explicitly. -/

/-- Job kinds, the Go string constants JobHLS and JobMP4. -/
def jobHLS : String := "hls"
def jobMP4 : String := "mp4"

/-- jobKey: kind and resource path joined by a colon. -/
def jobKey (kind rel : String) : String := kind ++ ":" ++ rel

/-- media.JobStatus DTO. -/
structure JobStatus where
  state : String
  url : String
  ready : Bool
  processing : Bool
  segments : Int
  error : String
  progress : Int
deriving DecidableEq, Repr

/-- Go zero value media.JobStatus\x7b\x7d. -/
def JobStatus.empty : JobStatus := ⟨"", "", false, false, 0, "", 0⟩

/-- ASCII lowering of one character, the fragment of strings.ToLower the
extension check exercises. -/
def lowerChar (c : Char) : Char :=
  if 'A' ≤ c ∧ c ≤ 'Z' then Char.ofNat (c.toNat + 32) else c

/-- ASCII fragment of strings.ToLower. -/
def asciiLower (s : String) : String := String.mk (s.data.map lowerChar)

/-- Helper for filepath.Ext: walk the characters in reverse, collect until
the final dot of the final slash-separated element. -/
def fileExtAux : List Char → List Char → String
  | [], _ => ""
  | c :: rest, acc =>
      if c = '/' then ""
      else if c = '.' then String.mk ('.' :: acc)
      else fileExtAux rest (c :: acc)

/-- filepath.Ext: the suffix beginning at the final dot in the final
slash-separated element of the path, empty if there is no dot. -/
def fileExt (p : String) : String := fileExtAux p.data.reverse []

/-- Result of a kickoff call: the returned status and error, the registry
after the call, and the observable effects. -/
structure KickoffOut where
  status : JobStatus
  err : Option String
  reg : Registry
  prepOutput : Bool
  spawned : Bool

/-- Service.StartHLS after path resolution: rel and url are the resolved
path and public URL, ready and segments the result of the hlsReady probe at
call time, prepFails whether prepareHLSOutput would fail. -/
def startHLS (reg : Registry) (rel url : String) (ready : Bool) (segments : Int)
    (prepFails : Bool) : KickoffOut :=
  let k := jobKey jobHLS rel
  if reg.isRunning k then
    { status := { JobStatus.empty with
                  state := stateProcessing, processing := true,
                  url := url, segments := segments, ready := ready },
      err := none, reg := reg, prepOutput := false, spawned := false }
  else if ready then
    { status := { JobStatus.empty with
                  state := stateReady, ready := true,
                  url := url, segments := segments },
      err := none, reg := reg, prepOutput := false, spawned := false }
  else if prepFails then
    { status := JobStatus.empty, err := some "prepare failed", reg := reg,
      prepOutput := true, spawned := false }
  else
    { status := { JobStatus.empty with
                  state := stateProcessing, processing := true,
                  url := url, segments := segments },
      err := none, reg := reg.start k, prepOutput := true, spawned := true }

/-- Service.StartMP4 after path resolution; ready is the mp4Ready probe
result at call time. The extension gate precedes everything else. -/
def startMP4 (reg : Registry) (rel url : String) (ready : Bool)
    (prepFails : Bool) : KickoffOut :=
  if asciiLower (fileExt rel) = ".mp4" then
    { status := JobStatus.empty, err := some "unsupported file type", reg := reg,
      prepOutput := false, spawned := false }
  else
    let k := jobKey jobMP4 rel
    if reg.isRunning k then
      { status := { JobStatus.empty with
                  state := stateProcessing, processing := true,
                    url := url, ready := ready, progress := (reg.statusOf k).progress },
        err := none, reg := reg, prepOutput := false, spawned := false }
    else if ready then
      { status := { JobStatus.empty with
                  state := stateReady, ready := true, url := url },
        err := none, reg := reg, prepOutput := false, spawned := false }
    else if prepFails then
      { status := JobStatus.empty, err := some "prepare failed", reg := reg,
        prepOutput := true, spawned := false }
    else
      { status := { JobStatus.empty with
                  state := stateProcessing, processing := true,
                    url := url },
        err := none, reg := reg.start k, prepOutput := true, spawned := true }

/-- Service.HLSStatus after path resolution, with the fresh hlsReady probe
result passed in. -/
def hlsStatus (reg : Registry) (rel url : String) (ready : Bool)
    (segments : Int) : JobStatus :=
  let e := reg.statusOf (jobKey jobHLS rel)
  if e.state = stateFailed then
    { JobStatus.empty with
      state := stateFailed, error := e.err, url := url,
      progress := e.progress }
  else if e.state = stateProcessing then
    { JobStatus.empty with
      state := stateProcessing, processing := true, url := url,
      segments := segments, ready := ready, progress := e.progress }
  else if ready then
    { JobStatus.empty with
      state := stateReady, ready := true, url := url,
      segments := segments }
  else
    { JobStatus.empty with
      state := stateIdle, url := url, segments := segments }

/-- Service.MP4Status after path resolution, with the fresh mp4Ready probe
result passed in. -/
def mp4Status (reg : Registry) (rel url : String) (ready : Bool) : JobStatus :=
  let e := reg.statusOf (jobKey jobMP4 rel)
  if e.state = stateFailed then
    { JobStatus.empty with
      state := stateFailed, error := e.err, url := url,
      progress := e.progress }
  else if e.state = stateProcessing then
    { JobStatus.empty with
      state := stateProcessing, processing := true, url := url,
      ready := ready, progress := e.progress }
  else if ready then
    { JobStatus.empty with
      state := stateReady, ready := true, url := url,
      progress := 100 }
  else
    { JobStatus.empty with
      state := stateIdle, url := url, progress := e.progress }

/-! Registry states reachable by the operations the service actually
performs: Start is issued by StartHLS on hls keys and by StartMP4 on mp4
keys only after the extension gate, Ready and Fail by the conversion
goroutines, and Progress only by the MP4 goroutine on its own mp4 key
(the sole jobs.Progress call site in the source). -/

inductive Reach : Registry → Prop
  | empty : Reach Registry.empty
  | startHLS (r : Registry) (rel : String) :
      Reach r → Reach (r.start (jobKey jobHLS rel))
  | startMP4 (r : Registry) (rel : String) :
      asciiLower (fileExt rel) ≠ ".mp4" → Reach r →
      Reach (r.start (jobKey jobMP4 rel))
  | markReady (r : Registry) (k : String) : Reach r → Reach (r.markReady k)
  | fail (r : Registry) (k msg : String) : Reach r → Reach (r.fail k msg)
  | reportProgress (r : Registry) (rel : String) (v : Int) :
      Reach r → Reach (r.reportProgress (jobKey jobMP4 rel) v)

theorem jobKey_hls_ne_mp4 (a b : String) : jobKey jobHLS a ≠ jobKey jobMP4 b := by
  intro h
  have h2 := congrArg String.data h
  simp [jobKey, jobHLS, jobMP4, String.data_append] at h2

theorem jobKey_mp4_inj (a b : String) (h : jobKey jobMP4 a = jobKey jobMP4 b) :
    a = b := by
  have h2 := congrArg String.data h
  simp [jobKey, jobMP4, String.data_append] at h2
  exact String.ext h2

theorem Registry.statusOf_start (r : Registry) (k : String) :
    (r.start k).statusOf k = ⟨stateProcessing, "", 0⟩ :=
  r.statusOf_update k _

theorem Registry.statusOf_start_ne (r : Registry) (k q : String) (h : q ≠ k) :
    (r.start k).statusOf q = r.statusOf q :=
  r.statusOf_update_ne k q _ h

theorem Registry.statusOf_markReady_ne (r : Registry) (k q : String) (h : q ≠ k) :
    (r.markReady k).statusOf q = r.statusOf q :=
  Registry.statusOf_update_ne r k q _ h

theorem Registry.statusOf_fail_ne (r : Registry) (k q msg : String) (h : q ≠ k) :
    (r.fail k msg).statusOf q = r.statusOf q :=
  Registry.statusOf_update_ne r k q _ h

theorem Registry.statusOf_reportProgress_ne (r : Registry) (k q : String) (v : Int)
    (h : q ≠ k) : (r.reportProgress k v).statusOf q = r.statusOf q :=
  Registry.statusOf_update_ne r k q _ h

/-- The state stored by reportProgress is the state the entry already had
(the zero entry state for a missing key): progress updates never change the
state field. -/
theorem Registry.state_reportProgress (r : Registry) (k : String) (v : Int) :
    ((r.reportProgress k v).statusOf k).state = ((r k).getD JobEntry.zero).state := by
  unfold Registry.reportProgress
  rcases h : r k with _ | e <;>
    simp only [h, Option.getD_some, Option.getD_none, Registry.statusOf,
      Registry.update, JobEntry.zero] <;>
    split_ifs <;> simp

/-- Invariant of reachable registries: a Processing hls entry stores
progress 0 (nothing ever reports progress for hls keys), and a Processing
mp4 entry can only belong to a resource that passed the extension gate. -/
def RegInv (r : Registry) : Prop :=
  (∀ rel, (r.statusOf (jobKey jobHLS rel)).state = stateProcessing →
    (r.statusOf (jobKey jobHLS rel)).progress = 0)
  ∧ (∀ rel, (r.statusOf (jobKey jobMP4 rel)).state = stateProcessing →
    asciiLower (fileExt rel) ≠ ".mp4")

theorem reach_regInv (r : Registry) (hr : Reach r) : RegInv r := by
  induction hr with
  | empty =>
      constructor <;> intro rel h <;>
        simp [Registry.statusOf, Registry.empty, stateIdle, stateProcessing] at h
  | startHLS r rel hr ih =>
      constructor
      · intro q hq
        by_cases hk : jobKey jobHLS q = jobKey jobHLS rel
        · rw [hk, Registry.statusOf_start]
        · rw [Registry.statusOf_start_ne r _ _ hk] at hq ⊢
          exact ih.1 q hq
      · intro q hq
        rw [Registry.statusOf_start_ne r _ _ (Ne.symm (jobKey_hls_ne_mp4 rel q))] at hq
        exact ih.2 q hq
  | startMP4 r rel hext hr ih =>
      constructor
      · intro q hq
        rw [Registry.statusOf_start_ne r _ _ (jobKey_hls_ne_mp4 q rel)] at hq
        exact ih.1 q hq
      · intro q hq
        by_cases hk : jobKey jobMP4 q = jobKey jobMP4 rel
        · rw [jobKey_mp4_inj q rel hk]
          exact hext
        · rw [Registry.statusOf_start_ne r _ _ hk] at hq
          exact ih.2 q hq
  | markReady r k hr ih =>
      constructor
      · intro q hq
        by_cases hk : jobKey jobHLS q = k
        · rw [hk] at hq
          unfold Registry.markReady at hq
          rw [Registry.statusOf_update] at hq
          simp [stateReady, stateProcessing] at hq
        · rw [Registry.statusOf_markReady_ne r _ _ hk] at hq ⊢
          exact ih.1 q hq
      · intro q hq
        by_cases hk : jobKey jobMP4 q = k
        · rw [hk] at hq
          unfold Registry.markReady at hq
          rw [Registry.statusOf_update] at hq
          simp [stateReady, stateProcessing] at hq
        · rw [Registry.statusOf_markReady_ne r _ _ hk] at hq
          exact ih.2 q hq
  | fail r k msg hr ih =>
      constructor
      · intro q hq
        by_cases hk : jobKey jobHLS q = k
        · rw [hk] at hq
          unfold Registry.fail at hq
          rw [Registry.statusOf_update] at hq
          simp [stateFailed, stateProcessing] at hq
        · rw [Registry.statusOf_fail_ne r _ _ _ hk] at hq ⊢
          exact ih.1 q hq
      · intro q hq
        by_cases hk : jobKey jobMP4 q = k
        · rw [hk] at hq
          unfold Registry.fail at hq
          rw [Registry.statusOf_update] at hq
          simp [stateFailed, stateProcessing] at hq
        · rw [Registry.statusOf_fail_ne r _ _ _ hk] at hq
          exact ih.2 q hq
  | reportProgress r rel v hr ih =>
      constructor
      · intro q hq
        rw [Registry.statusOf_reportProgress_ne r _ _ _
          (Ne.symm (jobKey_hls_ne_mp4 q rel)).symm] at hq ⊢
        exact ih.1 q hq
      · intro q hq
        by_cases hk : jobKey jobMP4 q = jobKey jobMP4 rel
        · rw [hk] at hq
          rw [Registry.state_reportProgress] at hq
          rcases h2 : r (jobKey jobMP4 rel) with _ | e
          · rw [h2] at hq
            simp [JobEntry.zero, stateProcessing] at hq
          · rw [h2] at hq
            have : (r.statusOf (jobKey jobMP4 rel)).state = stateProcessing := by
              simp [Registry.statusOf, h2]
              exact hq
            rw [jobKey_mp4_inj q rel hk]
            exact ih.2 rel this
        · rw [Registry.statusOf_reportProgress_ne r _ _ _ hk] at hq
          exact ih.2 q hq

/-- From IsRunning the stored entry state is Processing. -/
theorem Registry.isRunning_state (r : Registry) (k : String)
    (h : r.isRunning k = true) : (r.statusOf k).state = stateProcessing := by
  unfold Registry.isRunning at h
  rcases h2 : r k with _ | e <;> rw [h2] at h
  · simp at h
  · simp only [decide_eq_true_eq] at h
    simp [Registry.statusOf, h2, h]

/-- C1: while the registry reports Processing for a (kind, resource) key,
a second kickoff call of that kind for that resource returns a Processing
status carrying the current stored progress, leaves the registry unchanged,
prepares no output and spawns no conversion goroutine, so the backend is
not invoked again and at most one job per key is ever launched.  Reach
restricts the registry to states the service can produce, under which an
hls job in flight stores progress 0, the value StartHLS reports. -/
theorem second_kickoff_joins_running_job
    (reg : Registry) (relH relM urlH urlM : String) (readyH readyM : Bool)
    (segs : Int) (prepH prepM : Bool)
    (hreach : Reach reg)
    (hH : reg.isRunning (jobKey jobHLS relH) = true)
    (hM : reg.isRunning (jobKey jobMP4 relM) = true) :
    (startHLS reg relH urlH readyH segs prepH).status.state = stateProcessing
    ∧ (startHLS reg relH urlH readyH segs prepH).status.progress
        = (reg.statusOf (jobKey jobHLS relH)).progress
    ∧ (startHLS reg relH urlH readyH segs prepH).reg = reg
    ∧ (startHLS reg relH urlH readyH segs prepH).prepOutput = false
    ∧ (startHLS reg relH urlH readyH segs prepH).spawned = false
    ∧ (startMP4 reg relM urlM readyM prepM).status.state = stateProcessing
    ∧ (startMP4 reg relM urlM readyM prepM).status.progress
        = (reg.statusOf (jobKey jobMP4 relM)).progress
    ∧ (startMP4 reg relM urlM readyM prepM).reg = reg
    ∧ (startMP4 reg relM urlM readyM prepM).prepOutput = false
    ∧ (startMP4 reg relM urlM readyM prepM).spawned = false := by
  have hinv := reach_regInv reg hreach
  have hprog0 := hinv.1 relH (reg.isRunning_state _ hH)
  have hext := hinv.2 relM (reg.isRunning_state _ hM)
  refine ⟨?_, ?_, ?_, ?_, ?_, ?_, ?_, ?_, ?_, ?_⟩ <;>
    simp [startHLS, startMP4, hH, hM, hext, JobStatus.empty, hprog0]

theorem second_kickoff_joins_running_job_witness :
    (startHLS ((Registry.empty.start (jobKey jobHLS "a.mkv")).start
        (jobKey jobMP4 "a.mkv")) "a.mkv" "u" false 0 false).spawned = false
    ∧ (startMP4 ((Registry.empty.start (jobKey jobHLS "a.mkv")).start
        (jobKey jobMP4 "a.mkv")) "a.mkv" "u" false false).spawned = false :=
  ⟨(second_kickoff_joins_running_job _ "a.mkv" "a.mkv" "u" "u" false false 0 false false
      (Reach.startMP4 _ _ (by decide) (Reach.startHLS _ _ Reach.empty))
      (by decide) (by decide)).2.2.2.2.1,
   (second_kickoff_joins_running_job _ "a.mkv" "a.mkv" "u" "u" false false 0 false false
      (Reach.startMP4 _ _ (by decide) (Reach.startHLS _ _ Reach.empty))
      (by decide) (by decide)).2.2.2.2.2.2.2.2.2⟩

/-- C2 counterexample: the claim as stated fails on the code.  First
conjunct: with an hls job Processing for a.mkv and the probe reporting a
valid artifact, StartHLS returns Processing, not Ready (the IsRunning
check precedes the readiness check).  Second conjunct: for a resource
whose extension is .mp4, StartMP4 rejects the request before consulting
the probe, even if the probe would report a valid artifact. -/
theorem ready_probe_kickoff_counterexample :
    (startHLS (Registry.empty.start (jobKey jobHLS "a.mkv")) "a.mkv" "u"
        true 3 false).status.state = stateProcessing
    ∧ stateProcessing ≠ stateReady
    ∧ (startMP4 Registry.empty "b.mp4" "u" true false).err
        = some "unsupported file type"
    ∧ (startMP4 Registry.empty "b.mp4" "u" true false).status.state ≠ stateReady := by
  refine ⟨by decide, by decide, by decide, by decide⟩

/-- C2 amended: if at the moment of the kickoff the probe finds a valid
artifact, the registry does not report Processing for the key, and (for
StartMP4) the resource extension is not .mp4, then the call returns Ready
immediately, leaves the registry unchanged, prepares no output and spawns
no conversion. -/
theorem ready_probe_returns_ready
    (reg : Registry) (relH relM urlH urlM : String) (segs : Int) (prepH prepM : Bool)
    (hH : reg.isRunning (jobKey jobHLS relH) = false)
    (hM : reg.isRunning (jobKey jobMP4 relM) = false)
    (hext : asciiLower (fileExt relM) ≠ ".mp4") :
    (startHLS reg relH urlH true segs prepH).status.state = stateReady
    ∧ (startHLS reg relH urlH true segs prepH).reg = reg
    ∧ (startHLS reg relH urlH true segs prepH).prepOutput = false
    ∧ (startHLS reg relH urlH true segs prepH).spawned = false
    ∧ (startHLS reg relH urlH true segs prepH).err = none
    ∧ (startMP4 reg relM urlM true prepM).status.state = stateReady
    ∧ (startMP4 reg relM urlM true prepM).reg = reg
    ∧ (startMP4 reg relM urlM true prepM).prepOutput = false
    ∧ (startMP4 reg relM urlM true prepM).spawned = false
    ∧ (startMP4 reg relM urlM true prepM).err = none := by
  refine ⟨?_, ?_, ?_, ?_, ?_, ?_, ?_, ?_, ?_, ?_⟩ <;>
    simp [startHLS, startMP4, hH, hM, hext]

theorem ready_probe_returns_ready_witness :
    (startHLS Registry.empty "a.mkv" "u" true 3 false).status.state = stateReady
    ∧ (startMP4 Registry.empty "a.mkv" "u" true false).status.state = stateReady :=
  ⟨(ready_probe_returns_ready Registry.empty "a.mkv" "a.mkv" "u" "u" 3 false false
      (by decide) (by decide) (by decide)).1,
   (ready_probe_returns_ready Registry.empty "a.mkv" "a.mkv" "u" "u" 3 false false
      (by decide) (by decide) (by decide)).2.2.2.2.2.1⟩

/-- C3: status queries combine the registry with a fresh probe: a Failed
registry entry is returned as-is with its recorded error and progress, a
Processing entry as-is with its progress, and an Idle entry still yields
Ready whenever the fresh probe finds a valid artifact, which covers the
post-restart empty registry. -/
theorem status_combines_registry_and_probe
    (regF regP regI : Registry) (rel url : String) (ready : Bool) (segs : Int)
    (hFh : (regF.statusOf (jobKey jobHLS rel)).state = stateFailed)
    (hFm : (regF.statusOf (jobKey jobMP4 rel)).state = stateFailed)
    (hPh : (regP.statusOf (jobKey jobHLS rel)).state = stateProcessing)
    (hPm : (regP.statusOf (jobKey jobMP4 rel)).state = stateProcessing)
    (hIh : (regI.statusOf (jobKey jobHLS rel)).state = stateIdle)
    (hIm : (regI.statusOf (jobKey jobMP4 rel)).state = stateIdle) :
    (hlsStatus regF rel url ready segs).state = stateFailed
    ∧ (hlsStatus regF rel url ready segs).error
        = (regF.statusOf (jobKey jobHLS rel)).err
    ∧ (hlsStatus regP rel url ready segs).state = stateProcessing
    ∧ (hlsStatus regP rel url ready segs).progress
        = (regP.statusOf (jobKey jobHLS rel)).progress
    ∧ (hlsStatus regI rel url true segs).state = stateReady
    ∧ (mp4Status regF rel url ready).state = stateFailed
    ∧ (mp4Status regF rel url ready).error
        = (regF.statusOf (jobKey jobMP4 rel)).err
    ∧ (mp4Status regP rel url ready).state = stateProcessing
    ∧ (mp4Status regP rel url ready).progress
        = (regP.statusOf (jobKey jobMP4 rel)).progress
    ∧ (mp4Status regI rel url true).state = stateReady := by
  refine ⟨?_, ?_, ?_, ?_, ?_, ?_, ?_, ?_, ?_, ?_⟩ <;>
    simp [hlsStatus, mp4Status, hFh, hFm, hPh, hPm, hIh, hIm,
      stateFailed, stateProcessing, stateIdle, stateReady]

theorem status_combines_registry_and_probe_witness :
    (hlsStatus ((Registry.empty.fail (jobKey jobHLS "a.mkv") "boom").fail
        (jobKey jobMP4 "a.mkv") "boom") "a.mkv" "u" false 0).state = stateFailed
    ∧ (hlsStatus Registry.empty "a.mkv" "u" true 0).state = stateReady
    ∧ (mp4Status Registry.empty "a.mkv" "u" true).state = stateReady :=
  ⟨(status_combines_registry_and_probe
      ((Registry.empty.fail (jobKey jobHLS "a.mkv") "boom").fail
        (jobKey jobMP4 "a.mkv") "boom")
      ((Registry.empty.start (jobKey jobHLS "a.mkv")).start (jobKey jobMP4 "a.mkv"))
      Registry.empty "a.mkv" "u" false 0
      (by decide) (by decide) (by decide) (by decide) (by decide) (by decide)).1,
   (status_combines_registry_and_probe
      ((Registry.empty.fail (jobKey jobHLS "a.mkv") "boom").fail
        (jobKey jobMP4 "a.mkv") "boom")
      ((Registry.empty.start (jobKey jobHLS "a.mkv")).start (jobKey jobMP4 "a.mkv"))
      Registry.empty "a.mkv" "u" false 0
      (by decide) (by decide) (by decide) (by decide) (by decide)
      (by decide)).2.2.2.2.1,
   (status_combines_registry_and_probe
      ((Registry.empty.fail (jobKey jobHLS "a.mkv") "boom").fail
        (jobKey jobMP4 "a.mkv") "boom")
      ((Registry.empty.start (jobKey jobHLS "a.mkv")).start (jobKey jobMP4 "a.mkv"))
      Registry.empty "a.mkv" "u" false 0
      (by decide) (by decide) (by decide) (by decide) (by decide)
      (by decide)).2.2.2.2.2.2.2.2.2⟩

/-- C10: for a resource whose resolved path has extension .mp4 in any
letter case, StartMP4 returns the unsupported-file-type error with the
zero-valued status, leaves the registry untouched, prepares no output and
spawns no conversion. -/
theorem startMP4_rejects_mp4_extension
    (reg : Registry) (rel url : String) (ready prep : Bool)
    (h : asciiLower (fileExt rel) = ".mp4") :
    (startMP4 reg rel url ready prep).err = some "unsupported file type"
    ∧ (startMP4 reg rel url ready prep).status = JobStatus.empty
    ∧ (startMP4 reg rel url ready prep).reg = reg
    ∧ (startMP4 reg rel url ready prep).prepOutput = false
    ∧ (startMP4 reg rel url ready prep).spawned = false := by
  refine ⟨?_, ?_, ?_, ?_, ?_⟩ <;> simp [startMP4, h]

theorem startMP4_rejects_mp4_extension_witness :
    (startMP4 Registry.empty "dir/Movie.MP4" "u" false false).err
      = some "unsupported file type" :=
  (startMP4_rejects_mp4_extension Registry.empty "dir/Movie.MP4" "u" false false
    (by decide)).1

/-! Piece-Focus Negotiator arithmetic
(backend/internal/infrastructure/transmission/client.go).  The playback
position is a float64 in Go; it is embedded here as an exact rational, and
the float-to-int64 conversion as truncation toward zero. -/

/-- Truncation toward zero, the semantics of the Go int64 conversion. -/
def ratTrunc (q : ℚ) : Int := if q < 0 then ⌈q⌉ else ⌊q⌋

/-- pieceInfo: file length, piece size and the inclusive global piece range
of the file. -/
structure PieceInfo where
  length : Int
  pieceSize : Int
  beginPiece : Int
  endPiece : Int
deriving DecidableEq, Repr

/-- pieceInfo.startPieceForRatio: validity guard, clamp of the position
into [0,1], byte offset of the position, integer division by the piece
size (the Go / operator truncates), and clamp into the piece range.
Returns none for the (0, false) result.  This form idealises the float64
product of the source as exact rational arithmetic; startPieceForPosFloat
below makes the float64 rounding explicit, and the piece-arithmetic claim
is settled against that rounding-faithful form. -/
def startPieceForPos (p : PieceInfo) (pos : ℚ) : Option Int :=
  if p.length ≤ 0 ∨ p.pieceSize ≤ 0 ∨ p.endPiece < p.beginPiece then none
  else
    let pos2 := if pos < 0 then 0 else if pos > 1 then 1 else pos
    let offset := ratTrunc (((p.length - 1 : ℤ) : ℚ) * pos2)
    let offset2 := if offset < 0 then 0 else offset
    let pieceOffset := Int.tdiv offset2 p.pieceSize
    let start := p.beginPiece + pieceOffset
    let start2 := if start < p.beginPiece then p.beginPiece else start
    let start3 := if start2 > p.endPiece then p.endPiece else start2
    some start3

/-- Modelled from the spec: the target piece formula
beginPiece + floor((length-1)*pos / pieceSize) clamped into
[beginPiece, endPiece], stated for comparison with the source function. -/
def specTargetPiece (p : PieceInfo) (pos : ℚ) : Int :=
  max p.beginPiece (min p.endPiece
    (p.beginPiece + ⌊((p.length - 1 : ℤ) : ℚ) * pos / ((p.pieceSize : ℤ) : ℚ)⌋))

/-- Dividing before or after taking the floor agrees for a positive
integer divisor. -/
theorem floor_div_int (x : ℚ) (s : ℤ) (hs : 0 < s) :
    ⌊x / (s : ℚ)⌋ = ⌊x⌋ / s := by
  have hchar : ∀ z : ℤ, z ≤ ⌊x / (s : ℚ)⌋ ↔ z ≤ ⌊x⌋ / s := by
    intro z
    rw [Int.le_floor, le_div_iff₀ (by exact_mod_cast hs), Int.le_ediv_iff_mul_le hs,
      Int.le_floor]
    push_cast
    rfl
  exact le_antisymm ((hchar _).mp le_rfl) ((hchar _).mpr le_rfl)

/-- In the valid-metadata case the source computation agrees with the spec
formula. -/
theorem startPieceForPos_spec_aux (p : PieceInfo) (pos : ℚ)
    (hL : 0 < p.length) (hS : 0 < p.pieceSize) (hbe : p.beginPiece ≤ p.endPiece)
    (h0 : 0 ≤ pos) (h1 : pos ≤ 1) :
    startPieceForPos p pos = some (specTargetPiece p pos) := by
  have hguard : ¬(p.length ≤ 0 ∨ p.pieceSize ≤ 0 ∨ p.endPiece < p.beginPiece) := by
    push_neg
    exact ⟨hL, hS, hbe⟩
  have hx : (0 : ℚ) ≤ ((p.length - 1 : ℤ) : ℚ) * pos := by
    apply mul_nonneg _ h0
    exact_mod_cast Int.sub_nonneg.mpr hL
  have htrunc : ratTrunc (((p.length - 1 : ℤ) : ℚ) * pos) =
      ⌊((p.length - 1 : ℤ) : ℚ) * pos⌋ := by
    unfold ratTrunc
    rw [if_neg (not_lt.mpr hx)]
  have hfloor0 : 0 ≤ ⌊((p.length - 1 : ℤ) : ℚ) * pos⌋ := Int.floor_nonneg.mpr hx
  have hq0 : 0 ≤ ⌊((p.length - 1 : ℤ) : ℚ) * pos / ((p.pieceSize : ℤ) : ℚ)⌋ := by
    apply Int.floor_nonneg.mpr
    apply div_nonneg hx
    exact_mod_cast le_of_lt hS
  unfold startPieceForPos specTargetPiece
  rw [if_neg hguard]
  simp only [if_neg (not_lt.mpr h0), if_neg (not_lt.mpr h1), htrunc,
    if_neg (not_lt.mpr hfloor0), Int.tdiv_eq_ediv hfloor0 (le_of_lt hS),
    ← floor_div_int _ _ hS]
  congr 1
  generalize ⌊((p.length - 1 : ℤ) : ℚ) * pos / ((p.pieceSize : ℤ) : ℚ)⌋ = t at hq0 ⊢
  rw [max_def, min_def]
  split_ifs <;> omega

/-! Float64 semantics of the negotiator arithmetic.  The source computes
offset = int64(float64(p.length-1) * ratio): the int64-to-float64
conversion and the product are each rounded to the nearest double
(round to nearest, ties to even, 53-bit significand).  The rounding is
made explicit here over the rationals; overflow and subnormal inputs are
outside the magnitudes this code path produces and are not modelled. -/

/-- Round a positive rational to 53 significant bits: the unit in the
last place is 2 ^ (Int.log 2 q - 52), the significand is rounded to the
nearest integer and a tie goes to the even significand. -/
def roundPos (q : ℚ) : ℚ :=
  let e : ℤ := Int.log 2 q - 52
  let m0 : ℤ := ⌊q / (2 : ℚ) ^ e⌋
  let r2 : ℚ := q / (2 : ℚ) ^ e - (m0 : ℚ)
  let m : ℤ :=
    if r2 < 1 / 2 then m0
    else if 1 / 2 < r2 then m0 + 1
    else if m0 % 2 = 0 then m0 else m0 + 1
  (m : ℚ) * (2 : ℚ) ^ e

/-- Float64 rounding of an exact rational value (normal range). -/
def roundDouble (q : ℚ) : ℚ :=
  if q = 0 then 0
  else if q < 0 then -roundPos (-q)
  else roundPos q

/-- pieceInfo.startPieceForRatio with the float64 arithmetic of the
source made explicit: the conversion of p.length - 1 and the product with
the position each round to the nearest double before the int64
truncation. -/
def startPieceForPosFloat (p : PieceInfo) (pos : ℚ) : Option Int :=
  if p.length ≤ 0 ∨ p.pieceSize ≤ 0 ∨ p.endPiece < p.beginPiece then none
  else
    let pos2 := if pos < 0 then 0 else if pos > 1 then 1 else pos
    let offset := ratTrunc (roundDouble (roundDouble ((p.length - 1 : ℤ) : ℚ) * pos2))
    let offset2 := if offset < 0 then 0 else offset
    let pieceOffset := Int.tdiv offset2 p.pieceSize
    let start := p.beginPiece + pieceOffset
    let start2 := if start < p.beginPiece then p.beginPiece else start
    let start3 := if start2 > p.endPiece then p.endPiece else start2
    some start3

/-- Modelled from the spec as amended: the claim formula with the product
taken in float64, beginPiece + floor(fl((length-1) * pos) / pieceSize)
clamped into the piece range. -/
def specTargetPieceFloat (p : PieceInfo) (pos : ℚ) : Int :=
  max p.beginPiece (min p.endPiece
    (p.beginPiece + ⌊roundDouble (roundDouble ((p.length - 1 : ℤ) : ℚ) * pos)
        / ((p.pieceSize : ℤ) : ℚ)⌋))

/-- Uniqueness of the base-2 logarithm from a binade enclosure. -/
theorem int_log2_eq (q : ℚ) (n : ℤ) (h1 : (2 : ℚ) ^ n ≤ q)
    (h2 : q < (2 : ℚ) ^ (n + 1)) : Int.log 2 q = n := by
  have hq : 0 < q := lt_of_lt_of_le (by positivity) h1
  have ha : n ≤ Int.log 2 q := by
    rw [← Int.zpow_le_iff_le_log (by norm_num) hq]
    exact_mod_cast h1
  have hb : Int.log 2 q < n + 1 := by
    rw [← Int.lt_zpow_iff_log_lt (by norm_num) hq]
    exact_mod_cast h2
  omega

/-- Evaluation rule for roundDouble: a binade enclosure fixes the
exponent, the significand bounds fix the floor, and the fractional
comparison fixes the rounding direction. -/
theorem roundDouble_eval (q : ℚ) (e m0 m : ℤ)
    (hbin1 : (2 : ℚ) ^ (e + 52) ≤ q) (hbin2 : q < (2 : ℚ) ^ (e + 53))
    (hm1 : (m0 : ℚ) * (2 : ℚ) ^ e ≤ q) (hm2 : q < ((m0 : ℚ) + 1) * (2 : ℚ) ^ e)
    (hm : m = if q - (m0 : ℚ) * (2 : ℚ) ^ e < (2 : ℚ) ^ e / 2 then m0
      else if (2 : ℚ) ^ e / 2 < q - (m0 : ℚ) * (2 : ℚ) ^ e then m0 + 1
      else if m0 % 2 = 0 then m0 else m0 + 1) :
    roundDouble q = (m : ℚ) * (2 : ℚ) ^ e := by
  have hz : (0 : ℚ) < (2 : ℚ) ^ e := by positivity
  have hq : 0 < q := lt_of_lt_of_le (by positivity) hbin1
  have hlog : Int.log 2 q = e + 52 := by
    apply int_log2_eq q (e + 52) hbin1
    rw [show e + 52 + 1 = e + 53 from by ring]
    exact hbin2
  have hfl : ⌊q / (2 : ℚ) ^ e⌋ = m0 := by
    rw [Int.floor_eq_iff]
    constructor
    · rw [le_div_iff₀ hz]
      exact hm1
    · rw [div_lt_iff₀ hz]
      exact_mod_cast hm2
  have key : q / (2 : ℚ) ^ e - (m0 : ℚ) = (q - (m0 : ℚ) * (2 : ℚ) ^ e) / (2 : ℚ) ^ e := by
    rw [sub_div]
    congr 1
    rw [mul_div_assoc, div_self (ne_of_gt hz), mul_one]
  have c1 : (q / (2 : ℚ) ^ e - (m0 : ℚ) < 1 / 2)
      ↔ (q - (m0 : ℚ) * (2 : ℚ) ^ e < (2 : ℚ) ^ e / 2) := by
    rw [key, div_lt_iff₀ hz]
    constructor <;> intro h <;> linarith
  have c2 : ((1 : ℚ) / 2 < q / (2 : ℚ) ^ e - (m0 : ℚ))
      ↔ ((2 : ℚ) ^ e / 2 < q - (m0 : ℚ) * (2 : ℚ) ^ e) := by
    rw [key, lt_div_iff₀ hz]
    constructor <;> intro h <;> linarith
  have hsel : (if q / (2 : ℚ) ^ e - (m0 : ℚ) < 1 / 2 then m0
      else if 1 / 2 < q / (2 : ℚ) ^ e - (m0 : ℚ) then m0 + 1
      else if m0 % 2 = 0 then m0 else m0 + 1) = m := by
    rw [hm]
    exact if_congr c1 rfl (if_congr c2 rfl rfl)
  rw [roundDouble, if_neg (ne_of_gt hq), if_neg (not_lt.mpr (le_of_lt hq))]
  simp only [roundPos]
  rw [hlog, show e + 52 - 52 = e from by ring, hfl, hsel]

theorem roundDouble_zero : roundDouble 0 = 0 := by
  rw [roundDouble, if_pos rfl]

theorem roundDouble_nonneg (q : ℚ) (hq : 0 ≤ q) : 0 ≤ roundDouble q := by
  rcases eq_or_lt_of_le hq with h | h
  · rw [← h, roundDouble_zero]
  · rw [roundDouble, if_neg (ne_of_gt h), if_neg (not_lt.mpr (le_of_lt h))]
    simp only [roundPos]
    have hz : (0 : ℚ) < (2 : ℚ) ^ (Int.log 2 q - 52) := by positivity
    have hm0 : (0 : ℤ) ≤ ⌊q / (2 : ℚ) ^ (Int.log 2 q - 52)⌋ :=
      Int.floor_nonneg.mpr (le_of_lt (div_pos h hz))
    have hm1 : (0 : ℤ) ≤ ⌊q / (2 : ℚ) ^ (Int.log 2 q - 52)⌋ + 1 := by omega
    split_ifs <;> refine mul_nonneg ?_ (le_of_lt hz) <;>
      first
      | exact_mod_cast hm0
      | exact_mod_cast hm1

/-- In the valid-metadata case the float-faithful computation agrees with
the amended formula. -/
theorem startPieceForPosFloat_spec_aux (p : PieceInfo) (pos : ℚ)
    (hL : 0 < p.length) (hS : 0 < p.pieceSize) (hbe : p.beginPiece ≤ p.endPiece)
    (h0 : 0 ≤ pos) (h1 : pos ≤ 1) :
    startPieceForPosFloat p pos = some (specTargetPieceFloat p pos) := by
  have hguard : ¬(p.length ≤ 0 ∨ p.pieceSize ≤ 0 ∨ p.endPiece < p.beginPiece) := by
    push_neg
    exact ⟨hL, hS, hbe⟩
  have hx : (0 : ℚ) ≤ roundDouble (roundDouble ((p.length - 1 : ℤ) : ℚ) * pos) := by
    apply roundDouble_nonneg
    apply mul_nonneg _ h0
    apply roundDouble_nonneg
    exact_mod_cast Int.sub_nonneg.mpr hL
  have htrunc : ratTrunc (roundDouble (roundDouble ((p.length - 1 : ℤ) : ℚ) * pos)) =
      ⌊roundDouble (roundDouble ((p.length - 1 : ℤ) : ℚ) * pos)⌋ := by
    unfold ratTrunc
    rw [if_neg (not_lt.mpr hx)]
  have hfloor0 : 0 ≤ ⌊roundDouble (roundDouble ((p.length - 1 : ℤ) : ℚ) * pos)⌋ :=
    Int.floor_nonneg.mpr hx
  have hq0 : 0 ≤ ⌊roundDouble (roundDouble ((p.length - 1 : ℤ) : ℚ) * pos)
      / ((p.pieceSize : ℤ) : ℚ)⌋ := by
    apply Int.floor_nonneg.mpr
    apply div_nonneg hx
    exact_mod_cast le_of_lt hS
  unfold startPieceForPosFloat specTargetPieceFloat
  rw [if_neg hguard]
  simp only [if_neg (not_lt.mpr h0), if_neg (not_lt.mpr h1), htrunc,
    if_neg (not_lt.mpr hfloor0), Int.tdiv_eq_ediv hfloor0 (le_of_lt hS),
    ← floor_div_int _ _ hS]
  congr 1
  generalize ⌊roundDouble (roundDouble ((p.length - 1 : ℤ) : ℚ) * pos)
      / ((p.pieceSize : ℤ) : ℚ)⌋ = t at hq0 ⊢
  rw [max_def, min_def]
  split_ifs <;> omega

/-- C5 counterexample: the claim formula is not what the program computes.
At piece metadata (length 4, piece size 1, pieces 0..10) and playback
position the float64 value nearest 1/3 (a ratio inside [0,1]), the
float64 product 3 * ratio lands exactly on a rounding tie and rounds up
to 1.0, so the negotiator focuses piece 1, while the exact formula
beginPiece + floor((length-1)*ratio / pieceSize) clamped gives piece 0. -/
theorem piece_focus_formula_counterexample :
    startPieceForPosFloat ⟨4, 1, 0, 10⟩ (6004799503160661 / 2 ^ 54) = some 1
    ∧ specTargetPiece ⟨4, 1, 0, 10⟩ (6004799503160661 / 2 ^ 54) = 0
    ∧ (0 : ℚ) ≤ 6004799503160661 / 2 ^ 54
    ∧ (6004799503160661 / 2 ^ 54 : ℚ) ≤ 1 := by
  have h3 : roundDouble (3 : ℚ) = 3 := by
    rw [roundDouble_eval 3 (-51) 6755399441055744 6755399441055744
      (by norm_num) (by norm_num) (by norm_num) (by norm_num) (by norm_num)]
    norm_num
  have hprod : roundDouble ((18014398509481983 : ℚ) / 2 ^ 54) = 1 := by
    rw [roundDouble_eval ((18014398509481983 : ℚ) / 2 ^ 54) (-53)
      9007199254740991 9007199254740992
      (by norm_num) (by norm_num) (by norm_num) (by norm_num) (by norm_num)]
    norm_num
  refine ⟨?_, ?_, by norm_num, by norm_num⟩
  · rw [startPieceForPosFloat_spec_aux ⟨4, 1, 0, 10⟩ _ (by norm_num) (by norm_num)
      (by norm_num) (by norm_num) (by norm_num)]
    simp only [specTargetPieceFloat, Option.some.injEq]
    rw [show (((4 : ℤ) - 1 : ℤ) : ℚ) = 3 from by norm_num, h3,
      show (3 : ℚ) * (6004799503160661 / 2 ^ 54) = 18014398509481983 / 2 ^ 54
        from by norm_num,
      hprod]
    norm_num
  · simp only [specTargetPiece]
    norm_num

/-- C5 (amended): with the product taken in float64 as the source does,
the Piece-Focus Negotiator computes exactly
beginPiece + floor(fl((length-1) * pos) / pieceSize) clamped into
[beginPiece, endPiece] for valid metadata and any position in [0,1]; on
the concrete file of length 1000, piece size 100, pieces 5..14, position
0 maps to piece 5, the float64 value nearest 0.99 to piece 14 and
position 1 clamps to piece 14, as the original examples state. -/
theorem startPieceForPosFloat_eq_spec (p : PieceInfo) (pos : ℚ)
    (hL : 0 < p.length) (hS : 0 < p.pieceSize) (hbe : p.beginPiece ≤ p.endPiece)
    (h0 : 0 ≤ pos) (h1 : pos ≤ 1) :
    startPieceForPosFloat p pos = some (specTargetPieceFloat p pos)
    ∧ startPieceForPosFloat ⟨1000, 100, 5, 14⟩ 0 = some 5
    ∧ startPieceForPosFloat ⟨1000, 100, 5, 14⟩ (4458563631096791 / 2 ^ 52) = some 14
    ∧ startPieceForPosFloat ⟨1000, 100, 5, 14⟩ 1 = some 14 := by
  have h999 : roundDouble (999 : ℚ) = 999 := by
    rw [roundDouble_eval 999 (-43) 8787296929185792 8787296929185792
      (by norm_num) (by norm_num) (by norm_num) (by norm_num) (by norm_num)]
    norm_num
  have hcast : (((1000 : ℤ) - 1 : ℤ) : ℚ) = 999 := by norm_num
  refine ⟨startPieceForPosFloat_spec_aux p pos hL hS hbe h0 h1, ?_, ?_, ?_⟩
  · rw [startPieceForPosFloat_spec_aux ⟨1000, 100, 5, 14⟩ 0 (by norm_num)
      (by norm_num) (by norm_num) (by norm_num) (by norm_num)]
    simp only [specTargetPieceFloat, Option.some.injEq]
    rw [hcast, h999, mul_zero, roundDouble_zero]
    norm_num
  · have hprod : roundDouble ((4454105067465694209 : ℚ) / 2 ^ 52)
        = 4349711979946967 / 2 ^ 42 := by
      rw [roundDouble_eval ((4454105067465694209 : ℚ) / 2 ^ 52) (-43)
        8699423959893934 8699423959893934
        (by norm_num) (by norm_num) (by norm_num) (by norm_num) (by norm_num)]
      norm_num
    rw [startPieceForPosFloat_spec_aux ⟨1000, 100, 5, 14⟩ _ (by norm_num)
      (by norm_num) (by norm_num) (by norm_num) (by norm_num)]
    simp only [specTargetPieceFloat, Option.some.injEq]
    rw [hcast, h999,
      show (999 : ℚ) * (4458563631096791 / 2 ^ 52) = 4454105067465694209 / 2 ^ 52
        from by norm_num,
      hprod]
    norm_num
  · rw [startPieceForPosFloat_spec_aux ⟨1000, 100, 5, 14⟩ 1 (by norm_num)
      (by norm_num) (by norm_num) (by norm_num) (by norm_num)]
    simp only [specTargetPieceFloat, Option.some.injEq]
    rw [hcast, h999, mul_one, h999]
    norm_num

theorem startPieceForPosFloat_eq_spec_witness :
    startPieceForPosFloat ⟨1000, 100, 5, 14⟩ (4458563631096791 / 2 ^ 52)
      = some (specTargetPieceFloat ⟨1000, 100, 5, 14⟩ (4458563631096791 / 2 ^ 52)) :=
  (startPieceForPosFloat_eq_spec ⟨1000, 100, 5, 14⟩ (4458563631096791 / 2 ^ 52)
    (by decide) (by decide) (by decide) (by norm_num) (by norm_num)).1

/-! Range streamer (src/unnamed/part_000, streamFile, package http), for a
complete file, after the Range header has been parsed into a start and an
optional end.  The response is either the 416 invalid-range answer echoing
the total size, or a partial-content answer carrying the Content-Range
triple and the bytes written by Seek(start) followed by
CopyN(contentLength). -/

inductive RangeOut (α : Type) where
  | invalid (total : Int)
  | ok (first last total : Int) (body : List α)
deriving DecidableEq

/-- streamFile on a complete file of the given bytes and a single-range
request bytes=start- or bytes=start-end (endReq none for the open form).
The default end is fileSize-1, overridden by a parsed end value; start
out of [0, fileSize) or start beyond the clamped end yields the 416
response echoing the total size. -/
def streamFileRange {α : Type} (file : List α) (start : Int)
    (endReq : Option Int) : RangeOut α :=
  let fileSize : Int := file.length
  let e0 := endReq.getD (fileSize - 1)
  if start < 0 ∨ start ≥ fileSize then RangeOut.invalid fileSize
  else
    let e1 := if e0 ≥ fileSize then fileSize - 1 else e0
    if start > e1 then RangeOut.invalid fileSize
    else RangeOut.ok start e1 fileSize
      ((file.drop start.toNat).take (e1 - start + 1).toNat)

/-- C8: the range streamer answers 416 echoing the total size exactly when
start is negative, at or past the file size, or past the requested end;
otherwise it answers partial content whose end is the requested end
clamped to fileSize-1, whose Content-Range triple is (start, end, total),
and whose body is exactly the end-start+1 bytes of the file from start.
On a 100-byte file, bytes=10-19 yields exactly the 10 bytes 10..19 with
Content-Range 10-19/100, and bytes=200- yields 416 echoing 100. -/
theorem streamFileRange_semantics {α : Type} (file : List α) (start : Int)
    (endReq : Option Int) :
    (streamFileRange file start endReq = RangeOut.invalid (file.length : Int)
      ↔ (start < 0 ∨ (file.length : Int) ≤ start
          ∨ ∃ e, endReq = some e ∧ e < start))
    ∧ (∀ s e tot (body : List α),
        streamFileRange file start endReq = RangeOut.ok s e tot body →
        s = start ∧ tot = (file.length : Int)
        ∧ e = min (endReq.getD (tot - 1)) (tot - 1)
        ∧ (body.length : Int) = e - start + 1
        ∧ body = (file.drop start.toNat).take (e - start + 1).toNat)
    ∧ streamFileRange (List.range 100) 10 (some 19)
        = RangeOut.ok 10 19 100 ((List.range 100).drop 10 |>.take 10)
    ∧ streamFileRange (List.range 100) 200 none = RangeOut.invalid 100 := by
  refine ⟨?_, ?_, by decide, by decide⟩
  · unfold streamFileRange
    rcases endReq with _ | e <;>
      simp only [Option.getD_some, Option.getD_none] <;>
      split_ifs <;>
      simp_all <;>
      omega
  · intro s e tot body hok
    unfold streamFileRange at hok
    rcases endReq with _ | eq2 <;>
      simp only [Option.getD_some, Option.getD_none] at hok <;>
      split_ifs at hok with h1 h2 <;>
      rcases hok with ⟨rfl, rfl, rfl, rfl⟩ <;>
      refine ⟨rfl, rfl, by simp only [Option.getD_none, Option.getD_some]; omega,
        ?_, by simp⟩ <;>
      · simp only [List.length_take, List.length_drop]
        omega

theorem streamFileRange_semantics_witness :
    (10 : Int) = 10 ∧ (100 : Int) = ((List.range 100).length : Int)
    ∧ (19 : Int) = min ((some (19 : Int)).getD (100 - 1)) (100 - 1)
    ∧ ((((List.range 100).drop (10 : Int).toNat).take
          ((19 : Int) - 10 + 1).toNat).length : Int) = 19 - 10 + 1
    ∧ ((List.range 100).drop (10 : Int).toNat).take ((19 : Int) - 10 + 1).toNat
        = ((List.range 100).drop (10 : Int).toNat).take ((19 : Int) - 10 + 1).toNat :=
  (streamFileRange_semantics (List.range 100) 10 (some 19)).2.1 10 19 100
    (((List.range 100).drop (10 : Int).toNat).take ((19 : Int) - 10 + 1).toNat)
    (by decide)

/-! Piece-Focus Negotiator capability cache (client.go,
Client.SetStreamingFocus).  RPC outcomes are inputs: an error is modelled
by the two predicates the code applies to its message text
(isUnsupportedFocusError and isPieceInfoUnsupported), and each issued
torrent-set request is logged with its form so that the theorems can talk
about which request shapes a call sends. -/

inductive FocusMode where
  | unknown
  | advanced
  | basic
deriving DecidableEq, Repr

/-- Client state relevant to focus negotiation: the cached capability mode
and the lastPiece map keyed by (torrent id, file index); the Go key is the
string id:fileIndex, an injective image of the pair. -/
structure ClientState where
  focusMode : FocusMode
  lastPiece : Int × Int → Option Int

def ClientState.init : ClientState := ⟨FocusMode.unknown, fun _ => none⟩

/-- Outcome classification of one RPC error by the two predicates the
client applies to the message text. -/
structure RpcErr where
  unsupportedArg : Bool
  pieceUnavailable : Bool
deriving DecidableEq, Repr

/-- The backend responses one SetStreamingFocus call can consume: the
piece-metadata fetch, and the camel and snake variants of the advanced and
basic torrent-set requests (none is a nil error). -/
structure CallOracle where
  fetch : Except RpcErr PieceInfo
  advCamel : Option RpcErr
  advSnake : Option RpcErr
  basicCamel : Option RpcErr
  basicSnake : Option RpcErr

inductive ReqForm where
  | advanced
  | basic
deriving DecidableEq, Repr

/-- Client.setBasicFocus: camel-cased request first; the snake-cased
variant is retried only when the first error is an unsupported-argument
one. Returns the issued requests and the final error. -/
def setBasicFocus (o : CallOracle) : List ReqForm × Option RpcErr :=
  match o.basicCamel with
  | none => ([ReqForm.basic], none)
  | some e =>
      if e.unsupportedArg then ([ReqForm.basic, ReqForm.basic], o.basicSnake)
      else ([ReqForm.basic], some e)

/-- Client.setAdvancedFocus: same two-variant structure with the
from-piece field included. -/
def setAdvancedFocus (o : CallOracle) : List ReqForm × Option RpcErr :=
  match o.advCamel with
  | none => ([ReqForm.advanced], none)
  | some e =>
      if e.unsupportedArg then ([ReqForm.advanced, ReqForm.advanced], o.advSnake)
      else ([ReqForm.advanced], some e)

/-- One SetStreamingFocus invocation: torrent id, file index, playback
position and the backend responses for this call. -/
structure FocusCall where
  tid : Int
  fi : Int
  pos : ℚ
  oracle : CallOracle

/-- Client.SetStreamingFocus: returns the state after the call, the error
returned to the caller and the requests issued, following the source
branch for branch. -/
def setStreamingFocus (s : ClientState) (c : FocusCall) :
    ClientState × Option RpcErr × List ReqForm :=
  if s.focusMode = FocusMode.basic then
    let b := setBasicFocus c.oracle
    (s, b.2, b.1)
  else
    match c.oracle.fetch with
    | Except.error e =>
        let s2 := if e.pieceUnavailable then { s with focusMode := FocusMode.basic }
          else s
        let b := setBasicFocus c.oracle
        (s2, b.2, b.1)
    | Except.ok pinfo =>
        match startPieceForPos pinfo c.pos with
        | none =>
            let b := setBasicFocus c.oracle
            (s, b.2, b.1)
        | some sp =>
            if s.lastPiece (c.tid, c.fi) = some sp then (s, none, [])
            else
              let a := setAdvancedFocus c.oracle
              match a.2 with
              | none =>
                  ({ focusMode := FocusMode.advanced,
                     lastPiece := fun q =>
                       if q = (c.tid, c.fi) then some sp else s.lastPiece q },
                   none, a.1)
              | some e =>
                  if e.unsupportedArg then
                    let b := setBasicFocus c.oracle
                    ({ s with focusMode := FocusMode.basic }, b.2, a.1 ++ b.1)
                  else (s, some e, a.1)

/-- A sequence of SetStreamingFocus calls, collecting every issued
request. -/
def runFocusCalls (s : ClientState) : List FocusCall → ClientState × List ReqForm
  | [] => (s, [])
  | c :: rest =>
      let r := setStreamingFocus s c
      let t := runFocusCalls r.1 rest
      (t.1, r.2.2 ++ t.2)

theorem setBasicFocus_forms (o : CallOracle) :
    ∀ rq ∈ (setBasicFocus o).1, rq = ReqForm.basic := by
  unfold setBasicFocus
  cases h : o.basicCamel with
  | none => simp
  | some e =>
      simp only [h]
      split_ifs <;> simp

/-- From a Basic cached mode one call changes nothing and issues only the
basic form. -/
theorem setStreamingFocus_basic (s : ClientState) (c : FocusCall)
    (hB : s.focusMode = FocusMode.basic) :
    (setStreamingFocus s c).1 = s
    ∧ (setStreamingFocus s c).2.2 = (setBasicFocus c.oracle).1
    ∧ (setStreamingFocus s c).2.1 = (setBasicFocus c.oracle).2 := by
  unfold setStreamingFocus
  rw [if_pos hB]
  exact ⟨rfl, rfl, rfl⟩

/-- C6: once the cached capability mode is Basic, every subsequent
SetStreamingFocus call, for any torrent and file, leaves the mode Basic and
issues only basic-form requests, never the advanced form; the downgrade
itself happens when an advanced request fails with an unsupported-argument
error, or when the piece-metadata fetch reports piece boundaries
unavailable, and in the first case the call recovers locally by retrying
once with the basic form, returning the basic outcome rather than the
advanced error. -/
theorem focus_downgrade_persists
    (sB s s2 : ClientState) (cs : List FocusCall) (c c2 : FocusCall)
    (pinfo : PieceInfo) (sp : Int) (e eF : RpcErr)
    (hB : sB.focusMode = FocusMode.basic)
    (hnb : s.focusMode ≠ FocusMode.basic)
    (hfetch : c.oracle.fetch = Except.ok pinfo)
    (hsp : startPieceForPos pinfo c.pos = some sp)
    (hlast : ¬s.lastPiece (c.tid, c.fi) = some sp)
    (hadv : (setAdvancedFocus c.oracle).2 = some e)
    (hun : e.unsupportedArg = true)
    (hnb2 : s2.focusMode ≠ FocusMode.basic)
    (hfetch2 : c2.oracle.fetch = Except.error eF)
    (hpu : eF.pieceUnavailable = true) :
    (runFocusCalls sB cs).1.focusMode = FocusMode.basic
    ∧ (∀ rq ∈ (runFocusCalls sB cs).2, rq = ReqForm.basic)
    ∧ (setStreamingFocus s c).1.focusMode = FocusMode.basic
    ∧ (setStreamingFocus s c).2.1 = (setBasicFocus c.oracle).2
    ∧ (setStreamingFocus s c).2.2
        = (setAdvancedFocus c.oracle).1 ++ (setBasicFocus c.oracle).1
    ∧ (setStreamingFocus s2 c2).1.focusMode = FocusMode.basic
    ∧ (setStreamingFocus s2 c2).2.1 = (setBasicFocus c2.oracle).2
    ∧ (setStreamingFocus s2 c2).2.2 = (setBasicFocus c2.oracle).1 := by
  have hrun : ∀ (cs : List FocusCall) (t : ClientState),
      t.focusMode = FocusMode.basic →
      (runFocusCalls t cs).1 = t
      ∧ ∀ rq ∈ (runFocusCalls t cs).2, rq = ReqForm.basic := by
    intro cs
    induction cs with
    | nil => intro t ht; exact ⟨rfl, by simp [runFocusCalls]⟩
    | cons c3 rest ih =>
        intro t ht
        have hstep := setStreamingFocus_basic t c3 ht
        have hrest := ih (setStreamingFocus t c3).1 (by rw [hstep.1]; exact ht)
        constructor
        · show (runFocusCalls (setStreamingFocus t c3).1 rest).1 = t
          rw [hrest.1, hstep.1]
        · intro rq hrq
          show rq = ReqForm.basic
          have : rq ∈ (setStreamingFocus t c3).2.2
              ∨ rq ∈ (runFocusCalls (setStreamingFocus t c3).1 rest).2 := by
            simpa [runFocusCalls] using hrq
          rcases this with h1 | h1
          · rw [hstep.2.1] at h1
            exact setBasicFocus_forms c3.oracle rq h1
          · exact hrest.2 rq h1
  have hmain : setStreamingFocus s c
      = ({ s with focusMode := FocusMode.basic }, (setBasicFocus c.oracle).2,
         (setAdvancedFocus c.oracle).1 ++ (setBasicFocus c.oracle).1) := by
    unfold setStreamingFocus
    rw [if_neg hnb, hfetch]
    simp only [hsp]
    rw [if_neg hlast]
    simp [hadv, hun]
  have hdrop : setStreamingFocus s2 c2
      = ({ s2 with focusMode := FocusMode.basic }, (setBasicFocus c2.oracle).2,
         (setBasicFocus c2.oracle).1) := by
    unfold setStreamingFocus
    rw [if_neg hnb2, hfetch2]
    simp [hpu]
  refine ⟨by rw [(hrun cs sB hB).1]; exact hB, (hrun cs sB hB).2, ?_, ?_, ?_, ?_, ?_, ?_⟩ <;>
    simp [hmain, hdrop]

theorem focus_downgrade_persists_witness :
    (setStreamingFocus ClientState.init
      ⟨1, 2, 0, ⟨Except.ok ⟨1000, 100, 5, 14⟩, some ⟨true, false⟩,
        some ⟨true, false⟩, none, none⟩⟩).1.focusMode = FocusMode.basic
    ∧ (setStreamingFocus ClientState.init
      ⟨1, 2, 0, ⟨Except.error ⟨false, true⟩, none, none, none,
        none⟩⟩).1.focusMode = FocusMode.basic :=
  have h := focus_downgrade_persists
    ⟨FocusMode.basic, fun _ => none⟩ ClientState.init ClientState.init []
    ⟨1, 2, 0, ⟨Except.ok ⟨1000, 100, 5, 14⟩, some ⟨true, false⟩,
      some ⟨true, false⟩, none, none⟩⟩
    ⟨1, 2, 0, ⟨Except.error ⟨false, true⟩, none, none, none, none⟩⟩
    ⟨1000, 100, 5, 14⟩ 5 ⟨true, false⟩ ⟨false, true⟩
    rfl (by decide) rfl (by norm_num [startPieceForPos, ratTrunc]) (by decide)
    rfl rfl (by decide) rfl rfl
  ⟨h.2.2.1, h.2.2.2.2.2.1⟩

/-! Growing-file reader (src/unnamed/part_003, growReader.Read).  Time is
discretised in the unit of the poll interval: the state keeps the stat
size last observed and the time elapsed since the last successful read
(time.Since(lastGrow)); each iteration of the Read loop consumes one
observation of the underlying file, and each poll sleep advances the
elapsed time by the poll duration.  The observation list plays the role of
fuel: an exhausted list means the loop was still polling. -/

inductive GrowObs where
  | data (n : Nat)
  | eofStat (size : Int) (cancelled : Bool)
  | fileErr
deriving DecidableEq, Repr

structure GrowSt where
  lastSize : Int
  elapsed : Nat
deriving DecidableEq, Repr

inductive ReadRes where
  | bytes (n : Nat)
  | eofRes
  | errRes
  | cancelRes
  | pending
deriving DecidableEq, Repr

/-- One run of growReader.Read: data resets the last-growth clock; on EOF
the stat size is compared against the remembered size, a grown file is
re-read at once with no sleep, a positive idle limit already reached ends
the stream, cancellation is observed during the sleep, and otherwise the
loop sleeps one poll interval and retries. -/
def growRead (poll idle : Nat) : GrowSt → List GrowObs → ReadRes × GrowSt
  | s, [] => (ReadRes.pending, s)
  | s, o :: rest =>
      match o with
      | GrowObs.data n =>
          if 0 < n then (ReadRes.bytes n, { s with elapsed := 0 })
          else growRead poll idle s rest
      | GrowObs.fileErr => (ReadRes.errRes, s)
      | GrowObs.eofStat size cancelled =>
          if s.lastSize < size then growRead poll idle { s with lastSize := size } rest
          else if 0 < idle ∧ idle ≤ s.elapsed then (ReadRes.eofRes, s)
          else if cancelled then (ReadRes.cancelRes, s)
          else growRead poll idle { s with elapsed := s.elapsed + poll } rest

/-- While every idle check stays below the limit, a run over a
no-growth stream just accumulates poll sleeps. -/
theorem growRead_below_limit (poll idle : Nat) (sz : Int) (rest : List GrowObs) :
    ∀ (m e0 : Nat), (∀ j, j < m → ¬(0 < idle ∧ idle ≤ e0 + j * poll)) →
    growRead poll idle ⟨sz, e0⟩ (List.replicate m (GrowObs.eofStat sz false) ++ rest)
      = growRead poll idle ⟨sz, e0 + m * poll⟩ rest := by
  intro m
  induction m with
  | zero => intro e0 _; simp
  | succ m ih =>
      intro e0 hall
      have h0 : ¬(0 < idle ∧ idle ≤ e0) := by
        have := hall 0 (by omega)
        simpa using this
      rw [List.replicate_succ, List.cons_append]
      simp only [growRead]
      rw [if_neg (lt_irrefl sz), if_neg h0, if_neg (by decide : ¬(false = true))]
      have hall2 : ∀ j, j < m → ¬(0 < idle ∧ idle ≤ (e0 + poll) + j * poll) := by
        intro j hj hc
        apply hall (j + 1) (by omega)
        refine ⟨hc.1, ?_⟩
        have harith : e0 + (j + 1) * poll = e0 + poll + j * poll := by ring
        omega
      rw [ih (e0 + poll) hall2,
        show e0 + poll + m * poll = e0 + (m + 1) * poll from by ring]

/-- Once the elapsed idle time can reach a positive limit within the
stream, the run ends with end of stream, at an elapsed time at least the
limit and (unless the limit was already exceeded on entry) less than one
poll past it. -/
theorem growRead_reaches_limit (poll idle : Nat) (sz : Int) (hT : 0 < idle) :
    ∀ (m e0 : Nat), (∃ j, j < m ∧ idle ≤ e0 + j * poll) →
    (growRead poll idle ⟨sz, e0⟩ (List.replicate m (GrowObs.eofStat sz false))).1
        = ReadRes.eofRes
    ∧ idle ≤ (growRead poll idle ⟨sz, e0⟩
        (List.replicate m (GrowObs.eofStat sz false))).2.elapsed
    ∧ ((growRead poll idle ⟨sz, e0⟩
          (List.replicate m (GrowObs.eofStat sz false))).2.elapsed = e0
        ∨ (growRead poll idle ⟨sz, e0⟩
            (List.replicate m (GrowObs.eofStat sz false))).2.elapsed < idle + poll) := by
  intro m
  induction m with
  | zero =>
      intro e0 hex
      rcases hex with ⟨j, hj, _⟩
      omega
  | succ m ih =>
      intro e0 hex
      rw [List.replicate_succ]
      simp only [growRead]
      rw [if_neg (lt_irrefl sz)]
      by_cases he : idle ≤ e0
      · rw [if_pos ⟨hT, he⟩]
        exact ⟨rfl, he, Or.inl rfl⟩
      · rw [if_neg (by omega : ¬(0 < idle ∧ idle ≤ e0)),
          if_neg (by decide : ¬(false = true))]
        have hex2 : ∃ j, j < m ∧ idle ≤ (e0 + poll) + j * poll := by
          rcases hex with ⟨j, hj, hle⟩
          rcases j with _ | j
          · omega
          · refine ⟨j, by omega, ?_⟩
            have harith : e0 + (j + 1) * poll = (e0 + poll) + j * poll := by ring
            omega
        have hres := ih (e0 + poll) hex2
        refine ⟨hres.1, hres.2.1, Or.inr ?_⟩
        rcases hres.2.2 with h1 | h1
        · omega
        · exact h1

/-- C7: over a file that has stopped growing, with a positive idle limit
the Read loop reports end of stream at the first poll at which the time
since the last growth has reached the limit (within one poll interval of
it when it was not already reached on entry), and not before: while every
check is below the limit it is still polling.  With a zero idle limit it
never reports end of stream, accumulating poll sleeps indefinitely, and
still returns new data, a read error, or cancellation when one arrives. -/
theorem growReader_idle_timeout
    (poll idle m m2 mz : Nat) (sz : Int) (e0 n : Nat)
    (hT : 0 < idle) (hn : 0 < n)
    (hhit : ∃ j, j < m ∧ idle ≤ e0 + j * poll)
    (hmiss : ∀ j, j < m2 → e0 + j * poll < idle) :
    (growRead poll idle ⟨sz, e0⟩ (List.replicate m (GrowObs.eofStat sz false))).1
        = ReadRes.eofRes
    ∧ idle ≤ (growRead poll idle ⟨sz, e0⟩
        (List.replicate m (GrowObs.eofStat sz false))).2.elapsed
    ∧ ((growRead poll idle ⟨sz, e0⟩
          (List.replicate m (GrowObs.eofStat sz false))).2.elapsed = e0
        ∨ (growRead poll idle ⟨sz, e0⟩
            (List.replicate m (GrowObs.eofStat sz false))).2.elapsed < idle + poll)
    ∧ (growRead poll idle ⟨sz, e0⟩ (List.replicate m2 (GrowObs.eofStat sz false))).1
        = ReadRes.pending
    ∧ growRead poll 0 ⟨sz, e0⟩ (List.replicate mz (GrowObs.eofStat sz false))
        = (ReadRes.pending, ⟨sz, e0 + mz * poll⟩)
    ∧ (growRead poll 0 ⟨sz, e0⟩ (List.replicate mz (GrowObs.eofStat sz false)
          ++ [GrowObs.data n])).1 = ReadRes.bytes n := by
  have hreach := growRead_reaches_limit poll idle sz hT m e0 hhit
  refine ⟨hreach.1, hreach.2.1, hreach.2.2, ?_, ?_, ?_⟩
  · have := growRead_below_limit poll idle sz [] m2 e0 (by
      intro j hj hc
      exact absurd hc.2 (by have := hmiss j hj; omega))
    rw [List.append_nil] at this
    rw [this]
    rfl
  · have := growRead_below_limit poll 0 sz [] mz e0 (by
      intro j _ hc
      exact absurd hc.1 (lt_irrefl 0))
    rw [List.append_nil] at this
    rw [this]
    rfl
  · have := growRead_below_limit poll 0 sz [GrowObs.data n] mz e0 (by
      intro j _ hc
      exact absurd hc.1 (lt_irrefl 0))
    rw [this, growRead]
    simp [hn]

theorem growReader_idle_timeout_witness :
    (growRead 100 500 ⟨7, 0⟩
        (List.replicate 6 (GrowObs.eofStat 7 false))).1 = ReadRes.eofRes
    ∧ (growRead 100 500 ⟨7, 0⟩
        (List.replicate 5 (GrowObs.eofStat 7 false))).1 = ReadRes.pending :=
  have h := growReader_idle_timeout 100 500 6 5 3 7 0 1
    (by decide) (by decide) ⟨5, by decide⟩ (by decide)
  ⟨h.1, h.2.2.2.1⟩

/-! Prewarm scanner (src/unnamed/part_000, Service.observeStability and
Service.enqueuePrewarm), followed for one candidate resource that passes
the extension, readiness and is-running gates of
enqueuePrewarmCandidates.  Timestamps are integers in seconds; the queue
of other resources is summarised by its occupancy. -/

/-- prewarmObservation: last seen size and modification time and the
first-seen timestamp of the current pair. -/
structure PrewarmObs where
  size : Int
  modifiedAt : Int
  firstSeen : Int
deriving DecidableEq, Repr

/-- What one scan observes for the resource: current size, modification
time, and the scan timestamp now. -/
structure ScanInput where
  size : Int
  modifiedAt : Int
  now : Int
deriving DecidableEq, Repr

/-- Per-resource slice of the scanner state: the prewarmObserved entry,
membership in prewarmQueued, and the number of occupied queue slots. -/
structure PrewarmSt where
  observed : Option PrewarmObs
  queued : Bool
  queueLen : Nat
deriving DecidableEq, Repr

def prewarmQueueSize : Nat := 512

/-- defaultPrewarmStableFor, in seconds. -/
def prewarmStableFor : Int := 40

/-- Service.observeStability: a missing entry or a changed (size, mtime)
pair resets the observation with firstSeen = now and reports unstable;
an unchanged pair reports the stored observation as stable. -/
def observeStability (st : PrewarmSt) (i : ScanInput) :
    PrewarmSt × PrewarmObs × Bool :=
  match st.observed with
  | some prev =>
      if prev.size = i.size ∧ prev.modifiedAt = i.modifiedAt then (st, prev, true)
      else
        ({ st with observed := some ⟨i.size, i.modifiedAt, i.now⟩ },
         ⟨i.size, i.modifiedAt, i.now⟩, false)
  | none =>
      ({ st with observed := some ⟨i.size, i.modifiedAt, i.now⟩ },
       ⟨i.size, i.modifiedAt, i.now⟩, false)

/-- Service.enqueuePrewarm: a queued resource is skipped; otherwise it is
marked queued and pushed, except that a full queue drops the item and
unmarks it.  The Bool reports whether the resource was enqueued. -/
def enqueuePrewarm (st : PrewarmSt) : PrewarmSt × Bool :=
  if st.queued then (st, false)
  else if st.queueLen < prewarmQueueSize then
    ({ st with queued := true, queueLen := st.queueLen + 1 }, true)
  else (st, false)

/-- One scan of enqueuePrewarmCandidates for the candidate: update the
observation, skip unless it is stable and has persisted at least the dwell
window, otherwise enqueue. -/
def scanStep (st : PrewarmSt) (i : ScanInput) : PrewarmSt × Bool :=
  let r := observeStability st i
  if ¬r.2.2 ∨ i.now - r.2.1.firstSeen < prewarmStableFor then (r.1, false)
  else enqueuePrewarm r.1

/-- A sequence of scans, counting how many of them enqueued the
resource. -/
def runScans (st : PrewarmSt) : List ScanInput → PrewarmSt × Nat
  | [] => (st, 0)
  | i :: rest =>
      let r := scanStep st i
      let t := runScans r.1 rest
      (t.1, (if r.2 then 1 else 0) + t.2)

/-- A scan whose metadata differs from the stored observation (or with no
stored observation) resets and never enqueues; under consecutive-scan
distinctness nothing is ever enqueued. -/
theorem runScans_alldiff (is : List ScanInput) :
    ∀ (stObs : Option PrewarmObs) (q : Bool) (len : Nat),
    List.Chain' (fun a b => b.size ≠ a.size ∨ b.modifiedAt ≠ a.modifiedAt) is →
    (∀ o, stObs = some o → ∀ i, is.head? = some i →
      (i.size ≠ o.size ∨ i.modifiedAt ≠ o.modifiedAt)) →
    (runScans ⟨stObs, q, len⟩ is).2 = 0 := by
  induction is with
  | nil => intro stObs q len _ _; rfl
  | cons i rest ih =>
      intro stObs q len hch hhd
      have hstep : scanStep ⟨stObs, q, len⟩ i
          = (⟨some ⟨i.size, i.modifiedAt, i.now⟩, q, len⟩, false) := by
        rcases stObs with _ | o
        · simp [scanStep, observeStability]
        · have hne : ¬(o.size = i.size ∧ o.modifiedAt = i.modifiedAt) := by
            have := hhd o rfl i rfl
            tauto
          simp [scanStep, observeStability, hne]
      show (let r := scanStep ⟨stObs, q, len⟩ i
        let t := runScans r.1 rest
        (t.1, (if r.2 then 1 else 0) + t.2)).2 = 0
      rw [hstep]
      simp only [Bool.false_eq_true, if_false, Nat.zero_add]
      apply ih (some ⟨i.size, i.modifiedAt, i.now⟩) q len (List.Chain'.tail hch)
      intro o ho j hj
      cases ho
      rcases rest with _ | ⟨j2, rest2⟩
      · simp at hj
      · have := List.chain'_cons.mp hch
        simp only [List.head?] at hj
        cases hj
        exact this.1

/-- After the resource is queued, scans with unchanged metadata change
nothing and enqueue nothing. -/
theorem runScans_queued (o : PrewarmObs) (len : Nat) :
    ∀ (is : List ScanInput),
    (∀ i ∈ is, i.size = o.size ∧ i.modifiedAt = o.modifiedAt) →
    runScans ⟨some o, true, len⟩ is = (⟨some o, true, len⟩, 0) := by
  intro is
  induction is with
  | nil => intro _; rfl
  | cons i rest ih =>
      intro hconst
      have heq := hconst i (List.mem_cons_self i rest)
      have hstable : scanStep ⟨some o, true, len⟩ i = (⟨some o, true, len⟩, false) := by
        unfold scanStep observeStability
        simp only [heq.1.symm, heq.2.symm, and_self, if_true]
        split_ifs with h1
        · rfl
        · simp [enqueuePrewarm]
      have hunfold : runScans ⟨some o, true, len⟩ (i :: rest)
          = ((runScans (scanStep ⟨some o, true, len⟩ i).1 rest).1,
             (if (scanStep ⟨some o, true, len⟩ i).2 then 1 else 0)
               + (runScans (scanStep ⟨some o, true, len⟩ i).1 rest).2) := rfl
      rw [hunfold, hstable]
      rw [ih (fun j hj => hconst j (List.mem_cons_of_mem i hj))]
      simp

theorem runScans_cons (st : PrewarmSt) (i : ScanInput) (rest : List ScanInput) :
    runScans st (i :: rest)
      = ((runScans (scanStep st i).1 rest).1,
         (if (scanStep st i).2 then 1 else 0)
           + (runScans (scanStep st i).1 rest).2) := rfl

/-- With the metadata stable and unqueued, the resource is enqueued exactly
once as soon as one scan reaches the dwell window. -/
theorem runScans_stable_hit (o : PrewarmObs) :
    ∀ (is : List ScanInput),
    (∀ i ∈ is, i.size = o.size ∧ i.modifiedAt = o.modifiedAt) →
    (∃ i ∈ is, prewarmStableFor ≤ i.now - o.firstSeen) →
    (runScans ⟨some o, false, 0⟩ is).2 = 1 := by
  intro is
  induction is with
  | nil =>
      intro _ hex
      simp at hex
  | cons i rest ih =>
      intro hconst hex
      have heq := hconst i (List.mem_cons_self i rest)
      have hobs : observeStability ⟨some o, false, 0⟩ i = (⟨some o, false, 0⟩, o, true) := by
        simp only [observeStability]
        rw [if_pos ⟨heq.1.symm, heq.2.symm⟩]
      by_cases hbelow : i.now - o.firstSeen < prewarmStableFor
      · have hstep : scanStep ⟨some o, false, 0⟩ i = (⟨some o, false, 0⟩, false) := by
          unfold scanStep
          rw [hobs]
          simp [hbelow]
        have hex2 : ∃ j ∈ rest, prewarmStableFor ≤ j.now - o.firstSeen := by
          rcases hex with ⟨j, hj, hjT⟩
          rcases List.mem_cons.mp hj with rfl | hj2
          · omega
          · exact ⟨j, hj2, hjT⟩
        rw [runScans_cons, hstep]
        simp [ih (fun j hj => hconst j (List.mem_cons_of_mem i hj)) hex2]
      · have hstep : scanStep ⟨some o, false, 0⟩ i = (⟨some o, true, 1⟩, true) := by
          unfold scanStep
          rw [hobs]
          simp only [Bool.not_true, false_or]
          rw [if_neg (by simpa using hbelow)]
          simp [enqueuePrewarm, prewarmQueueSize]
        rw [runScans_cons, hstep,
          runScans_queued o 1 rest (fun j hj => hconst j (List.mem_cons_of_mem i hj))]
        rfl

/-- C9: across any sequence of prewarm scans starting from a fresh state,
a resource whose (size, mtime) differs from the previous observation on
every scan is never enqueued (each change resets the first-seen clock),
while a resource whose (size, mtime) stays unchanged is enqueued exactly
once as soon as some later scan lies at least the dwell window after the
first observation, duplicate enqueues being suppressed by the
queued-membership flag. -/
theorem prewarm_stability_gating
    (is rest : List ScanInput) (i0 : ScanInput)
    (hch : List.Chain' (fun a b => b.size ≠ a.size ∨ b.modifiedAt ≠ a.modifiedAt) is)
    (hconst : ∀ i ∈ rest, i.size = i0.size ∧ i.modifiedAt = i0.modifiedAt)
    (hex : ∃ i ∈ rest, prewarmStableFor ≤ i.now - i0.now) :
    (runScans ⟨none, false, 0⟩ is).2 = 0
    ∧ (runScans ⟨none, false, 0⟩ (i0 :: rest)).2 = 1 := by
  constructor
  · exact runScans_alldiff is none false 0 hch (by intro o ho; cases ho)
  · have hstep : scanStep ⟨none, false, 0⟩ i0
        = (⟨some ⟨i0.size, i0.modifiedAt, i0.now⟩, false, 0⟩, false) := by
      simp [scanStep, observeStability]
    rw [runScans_cons, hstep]
    rw [runScans_stable_hit ⟨i0.size, i0.modifiedAt, i0.now⟩ rest hconst hex]
    simp

theorem prewarm_stability_gating_witness :
    (runScans ⟨none, false, 0⟩
      [⟨1, 1, 0⟩, ⟨2, 1, 45⟩, ⟨3, 1, 90⟩]).2 = 0
    ∧ (runScans ⟨none, false, 0⟩
      (⟨5, 7, 0⟩ :: [⟨5, 7, 45⟩])).2 = 1 :=
  prewarm_stability_gating [⟨1, 1, 0⟩, ⟨2, 1, 45⟩, ⟨3, 1, 90⟩]
    [⟨5, 7, 45⟩] ⟨5, 7, 0⟩ (by norm_num [List.chain'_cons]) (by decide) (by decide)

end Evd
